import Mathlib

/-!
Verification of the adaptive monetization framework core.

Shallow embedding of `src/adaptive_monetization_framework.py`:
the `MonetizationStrategy` class (per-context decision state, reward
history, execution cycle) and the `AdaptiveMonetizationFramework`
orchestrator (registry, applicability filter, candidate execution with
rollback).

Modelling conventions:
* Python dicts with string keys are association lists `Dict` preserving
  insertion order; `{**old, k: v}` is modelled by `dictInsert`, which
  replaces the value in place when the key is present (as Python does)
  and appends otherwise.
* The external collaborators (emotion analyzer, reinforcement learner)
  and the fallible points of the code are injected through an `Env`
  record: each provider call is a function returning `Except Unit _`
  (`.error ()` models the call raising an arbitrary exception), and
  `merge_ok` models whether the dict construction inside
  `_update_state` (the copy-and-merge, including timestamp
  serialization) raises.
* `datetime.now().isoformat()` is modelled by the `now` field of the
  `Env` for the call.
* A method that can propagate an exception to its caller returns an
  `Option`/pair whose `none` component means "raised"; the strategy
  component carried alongside is the object state at that point (all
  raise points in `execute` precede any mutation, so it is the
  pre-state).
-/

/-- Values stored in the Python dicts of the source: strings (actions,
contexts, timestamps) and numbers (rewards, modelled as integers). -/
inductive Value where
  | vStr : String → Value
  | vInt : Int → Value
deriving DecidableEq

/-- A Python dict with string keys, as an insertion-ordered association
list with unique keys. -/
abbrev Dict := List (String × Value)

/-- Lookup `d[k]` returning `none` when absent (first matching key). -/
def dictLookup : Dict → String → Option Value
  | [], _ => none
  | (k', v') :: rest, k => if k' = k then some v' else dictLookup rest k

/-- Python `d.get(k, dflt)`. -/
def dictGet (d : Dict) (k : String) (dflt : Value) : Value :=
  (dictLookup d k).getD dflt

/-- The effect of `{**d, k: v}` on key `k`: replace in place when
present (keeping the key's position, as Python dicts do), else append. -/
def dictInsert : Dict → String → Value → Dict
  | [], k, v => [(k, v)]
  | (k', v') :: rest, k, v =>
      if k' = k then (k, v) :: rest else (k', v') :: dictInsert rest k v

/-- The sentiment/intensity record returned by the emotion analyzer
(`{"sentiment": ..., "intensity": ...}`). -/
structure Emotion where
  sentiment : String
  intensity : Int
deriving DecidableEq

/-- One call's external environment: the results of the provider calls
made during the call, whether the state-merge dict construction in
`_update_state` succeeds, and the current wall-clock timestamp.
`.error ()` models the corresponding Python call raising. -/
structure Env where
  analyze_result : Dict → Except Unit Emotion
  choose_action_result : Dict → Emotion → Except Unit String
  get_reward_result : String → Dict → Except Unit Int
  merge_ok : Bool
  now : String

/-- The mutable fields of a `MonetizationStrategy` instance:
`current_state`, `reward_history` and the `error_handling` flag set in
`__init__` (the analyzer/learner collaborators live in `Env`). -/
structure MonetizationStrategy where
  current_state : Dict
  reward_history : List Int
  error_handling : Bool
deriving DecidableEq

/-- The outcome dict `{"action": a, "reward": r, "timestamp": t}`
built at every return site of the source. -/
def mkOutcome (action : String) (reward : Int) (timestamp : String) : Dict :=
  [("action", Value.vStr action), ("reward", Value.vInt reward),
   ("timestamp", Value.vStr timestamp)]

/-- Model of `MonetizationStrategy._get_emotional_context`: delegates to
`emotion_analyzer.analyze`; on failure re-raises when `error_handling`
is off, else logs and returns the neutral default. -/
def get_emotional_context (strat : MonetizationStrategy) (env : Env)
    (user_interaction : Dict) : Except Unit Emotion :=
  match env.analyze_result user_interaction with
  | .ok e => .ok e
  | .error e =>
      if !strat.error_handling then .error e
      else .ok { sentiment := "neutral", intensity := 0 }

/-- Model of `MonetizationStrategy._select_next_action`: computes the emotional
context of `current_state`, asks the learner to choose an action; on
any failure in that path re-raises when `error_handling` is off, else
logs and falls back to `"minimal_intervention"`. -/
def select_next_action (strat : MonetizationStrategy) (env : Env) :
    Except Unit String :=
  match (get_emotional_context strat env strat.current_state).bind
      (fun ec => env.choose_action_result strat.current_state ec) with
  | .ok a => .ok a
  | .error e =>
      if !strat.error_handling then .error e
      else .ok "minimal_intervention"

/-- Model of `MonetizationStrategy._update_state`: copy-and-merge of
`last_action`, `timestamp`, `reward` into `current_state`, then append
the reward to `reward_history`.  When the merge raises (`merge_ok =
false`, e.g. timestamp serialization), nothing has been assigned yet:
the exception is re-raised when `error_handling` is off, else logged
and swallowed with state and history unchanged. -/
def update_state (strat : MonetizationStrategy) (env : Env)
    (action : String) (reward : Int) : Except Unit MonetizationStrategy :=
  if env.merge_ok then
    .ok { strat with
          current_state :=
            dictInsert (dictInsert (dictInsert strat.current_state
              "last_action" (Value.vStr action))
              "timestamp" (Value.vStr env.now))
              "reward" (Value.vInt reward),
          reward_history := strat.reward_history ++ [reward] }
  else if !strat.error_handling then .error ()
  else .ok strat

/-- Model of `MonetizationStrategy.execute`: select the action, look up its
reward, update state, and return the outcome dict; on any failure in
that sequence re-raise when `error_handling` is off (first component
`none`, object state unchanged since every raise point precedes
mutation), else log and return the degraded outcome
`{"action": "none", "reward": 0, "timestamp": now}`. -/
def execute (strat : MonetizationStrategy) (env : Env) :
    Option Dict × MonetizationStrategy :=
  match select_next_action strat env with
  | .error _ =>
      if !strat.error_handling then (none, strat)
      else (some (mkOutcome "none" 0 env.now), strat)
  | .ok action =>
    match env.get_reward_result action strat.current_state with
    | .error _ =>
        if !strat.error_handling then (none, strat)
        else (some (mkOutcome "none" 0 env.now), strat)
    | .ok reward =>
      match update_state strat env action reward with
      | .error _ =>
          if !strat.error_handling then (none, strat)
          else (some (mkOutcome "none" 0 env.now), strat)
      | .ok strat2 => (some (mkOutcome action reward env.now), strat2)

/-- The mutable fields of an `AdaptiveMonetizationFramework` instance:
the context-keyed registry (a dict, kept in insertion order), the
current context and the `error_handling` flag.  `active_strategy` and
`risk_assessor` are never read in the core and are omitted; the fact
that evaluating `RiskAssessor()` in `__init__` fails is modelled by
`framework_init` below. -/
structure AdaptiveMonetizationFramework where
  strategies : List (String × MonetizationStrategy)
  current_context : String
  error_handling : Bool
deriving DecidableEq

/-- Python `self.strategies.get(key, None)` on the registry. -/
def registryGet : List (String × MonetizationStrategy) → String →
    Option MonetizationStrategy
  | [], _ => none
  | (k, s) :: rest, key => if k = key then some s else registryGet rest key

/-- Model of `AdaptiveMonetizationFramework._is_strategy_applicable`:
`strategy.current_state.get("context", "none") == self.current_context`
(a non-string value never equals the context string). -/
def is_strategy_applicable (fw : AdaptiveMonetizationFramework)
    (strat : MonetizationStrategy) : Bool :=
  decide (dictGet strat.current_state "context" (Value.vStr "none")
    = Value.vStr fw.current_context)

/-- Model of `AdaptiveMonetizationFramework._select_relevant_strategies`: filter
the registry values (in insertion order) by applicability; when none
are applicable return the one-element list
`[self.strategies.get("fallback", None)]` — which contains Python's
`None` when no fallback is registered, hence the `Option` elements. -/
def select_relevant_strategies (fw : AdaptiveMonetizationFramework) :
    List (Option MonetizationStrategy) :=
  let applicable := (fw.strategies.filter
    (fun p => is_strategy_applicable fw p.2)).map (fun p => some p.2)
  if applicable.isEmpty then [registryGet fw.strategies "fallback"]
  else applicable

/-- Model of `AdaptiveMonetizationFramework._rollback_strategy_execution`: the
dict comprehension dropping the keys `last_action` and `reward` from
the strategy's state.  The whole body is inside a catch-all handler in
the source and the comprehension itself is total, so the model is a
total function. -/
def rollback_strategy_execution (strat : MonetizationStrategy) :
    MonetizationStrategy :=
  { strat with
    current_state :=
      List.filter (fun kv => decide (kv.1 ≠ "last_action" ∧ kv.1 ≠ "reward"))
        strat.current_state }

/-- Model of `AdaptiveMonetizationFramework._execute_strategy`: run the
strategy's `execute` and return its outcome (`_log_outcome` has its own
catch-all handler and never raises, so it does not affect the result).
If the call raises — either a strict-mode strategy propagating, or the
`AttributeError` from calling `.execute()` on the `None` that
`_select_relevant_strategies` yields for a missing fallback — then with
`error_handling` on, roll the strategy back and return the degraded
outcome (on the `None` candidate, rollback's own `AttributeError` is
swallowed inside `_rollback_strategy_execution`); with `error_handling`
off, re-raise (first component `none`). -/
def execute_strategy (fw : AdaptiveMonetizationFramework)
    (ostrat : Option MonetizationStrategy) (env : Env) :
    Option Dict × Option MonetizationStrategy :=
  match ostrat with
  | none =>
      if !fw.error_handling then (none, none)
      else (some (mkOutcome "none" 0 env.now), none)
  | some s =>
      match execute s env with
      | (some outcome, s2) => (some outcome, some s2)
      | (none, s2) =>
          if !fw.error_handling then (none, some s2)
          else (some (mkOutcome "none" 0 env.now),
                some (rollback_strategy_execution s2))

/-- Modelled from the spec: the candidate loop of
`AdaptiveMonetizationFramework.process_interaction` (the source file is
cut off at line 212, inside the loop body `outcome = self._execute…`).
Per §4.2 step 4 of the spec: execute each candidate in order via
`_execute_strategy`, return the first outcome whose `action` is not the
sentinel `"none"`, and when every candidate degrades return the last
degraded outcome.  Candidate `i` runs against environment `envAt i`; a
raised exception (`none`, only possible with `error_handling` off)
propagates out of the loop. -/
def run_candidates (fw : AdaptiveMonetizationFramework)
    (envAt : Nat → Env) :
    List (Option MonetizationStrategy) → Nat → Option Dict
  | [], _ => none
  | [c], i => (execute_strategy fw c (envAt i)).1
  | c :: c2 :: rest, i =>
      match execute_strategy fw c (envAt i) with
      | (none, _) => none
      | (some o, _) =>
          if dictLookup o "action" = some (Value.vStr "none")
          then run_candidates fw envAt (c2 :: rest) (i + 1)
          else some o

/-- Model of `AdaptiveMonetizationFramework.process_interaction` (lines 198–212
of the source, plus the loop tail modelled from the spec by
`run_candidates`): select the candidates, return the degraded outcome
immediately when the candidate list is empty, otherwise run the
candidate loop.  The surrounding `try` block's handler is also in the
truncated region; modelled from the spec (§7–§8: the caller always
receives a well-formed outcome, never an exception, when
`error_handling` is on, and strict mode re-raises).  `user_data` is
never read by the source body.  `now0` is the timestamp used by the
no-candidate return site. -/
def process_interaction (fw : AdaptiveMonetizationFramework)
    (envAt : Nat → Env) (now0 : String) (user_data : Dict) : Option Dict :=
  let applicable := select_relevant_strategies fw
  if applicable.isEmpty then some (mkOutcome "none" 0 now0)
  else
    match run_candidates fw envAt applicable 0 with
    | some o => some o
    | none =>
        if !fw.error_handling then none
        else some (mkOutcome "none" 0 now0)

/-- Repeated `execute()` calls on one strategy instance: thread the
object state through a sequence of call environments. -/
def execute_iter (strat : MonetizationStrategy) :
    List Env → MonetizationStrategy
  | [] => strat
  | env :: envs => execute_iter (execute strat env).2 envs

/-- The outcome each candidate of a list would produce when executed
via `_execute_strategy` from its current state (candidate `i` against
`envAt i`); used to state the first-success-else-last contract of the
candidate loop.  With `error_handling` on the `getD` default is never
used, since `_execute_strategy` always returns an outcome. -/
def candidate_outcomes (fw : AdaptiveMonetizationFramework)
    (envAt : Nat → Env) :
    List (Option MonetizationStrategy) → Nat → List Dict
  | [], _ => []
  | c :: rest, i =>
      ((execute_strategy fw c (envAt i)).1).getD
          (mkOutcome "none" 0 (envAt i).now)
        :: candidate_outcomes fw envAt rest (i + 1)

/-- An outcome counts as a success for the candidate loop iff its
`action` field is not the degraded sentinel `"none"`. -/
def outcome_success (o : Dict) : Bool :=
  decide (dictLookup o "action" ≠ some (Value.vStr "none"))

/-- The contract of the candidate loop stated on a list of outcomes:
the first success, and when there is none, the last outcome. -/
def first_success_else_last (outs : List Dict) : Option Dict :=
  match outs.find? outcome_success with
  | some o => some o
  | none => outs.getLast?

/-- Module-level global names defined or imported by the source file
(`np`, the `typing` names, `logging`, `datetime`, the two collaborator
classes, and the two classes it defines).  `RiskAssessor` is not among
them. -/
def moduleGlobals : List String :=
  ["np", "Dict", "List", "Optional", "logging", "datetime",
   "EmotionAnalyzer", "ReinforcementLearner",
   "MonetizationStrategy", "AdaptiveMonetizationFramework"]

/-- Model of `AdaptiveMonetizationFramework.__init__` as a name-resolution
model: the first three assignments are literals and always succeed;
`self.risk_assessor = RiskAssessor()` then resolves the global name
`RiskAssessor`, raising `NameError` when it is not bound, before
`error_handling` is set and before the instance is ever returned to the
caller. -/
def framework_init (globals : List String) :
    Except String AdaptiveMonetizationFramework :=
  if globals.contains "RiskAssessor" then
    .ok { strategies := [], current_context := "default",
          error_handling := true }
  else .error "NameError: name RiskAssessor is not defined"

/-- Concrete environment in which every provider call succeeds
(action `"upsell"`, reward `5`) and the state merge succeeds. -/
def envOkW : Env :=
  ⟨fun _ => .ok ⟨"neutral", 0⟩, fun _ _ => .ok "upsell",
   fun _ _ => .ok 5, true, "T1"⟩

/-- Concrete environment in which the reward lookup always raises. -/
def envRewardFailW : Env :=
  ⟨fun _ => .ok ⟨"neutral", 0⟩, fun _ _ => .ok "upsell",
   fun _ _ => .error (), true, "T1"⟩

/-- Concrete environment in which the providers succeed but the state
merge in `_update_state` raises. -/
def envMergeFailW : Env :=
  ⟨fun _ => .ok ⟨"neutral", 0⟩, fun _ _ => .ok "upsell",
   fun _ _ => .ok 5, false, "T1"⟩

/-- Concrete strategy for the `"default"` context with empty history
and error handling on (the constructor's defaults). -/
def stratW : MonetizationStrategy :=
  ⟨[("context", Value.vStr "default")], [], true⟩

/-- Concrete strategy state holding `context`, a caller-supplied
`plan`, and the two execution keys, for exercising rollback. -/
def stratRollW : MonetizationStrategy :=
  ⟨[("context", Value.vStr "default"), ("plan", Value.vStr "pro"),
    ("last_action", Value.vStr "upsell"), ("reward", Value.vInt 5)],
   [], true⟩

/-- Concrete orchestrator with one `"default"`-context strategy. -/
def fwW : AdaptiveMonetizationFramework :=
  ⟨[("default", stratW)], "default", true⟩

example :
    execute ⟨[("context", Value.vStr "default")], [], true⟩
      ⟨fun _ => .ok ⟨"neutral", 0⟩, fun _ _ => .ok "upsell",
       fun _ _ => .ok 5, true, "T"⟩
    = (some (mkOutcome "upsell" 5 "T"),
       ⟨[("context", Value.vStr "default"),
         ("last_action", Value.vStr "upsell"),
         ("timestamp", Value.vStr "T"),
         ("reward", Value.vInt 5)], [5], true⟩) := by decide

example :
    process_interaction ⟨[], "default", true⟩
      (fun _ => ⟨fun _ => .ok ⟨"neutral", 0⟩, fun _ _ => .ok "upsell",
        fun _ _ => .ok 5, true, "T1"⟩) "T0" []
    = some (mkOutcome "none" 0 "T1") := by decide

example :
    process_interaction
      ⟨[("default", ⟨[("context", Value.vStr "default")], [], true⟩)],
        "default", true⟩
      (fun _ => ⟨fun _ => .ok ⟨"neutral", 0⟩, fun _ _ => .ok "upsell",
        fun _ _ => .ok 5, true, "T1"⟩) "T0" []
    = some (mkOutcome "upsell" 5 "T1") := by decide

/-! ## Dictionary lemmas -/

theorem dictLookup_insert_self (d : Dict) (k : String) (v : Value) :
    dictLookup (dictInsert d k v) k = some v := by
  induction d with
  | nil => simp [dictInsert, dictLookup]
  | cons kv rest ih =>
      by_cases h : kv.1 = k
      · simp [dictInsert, h, dictLookup]
      · simp [dictInsert, h, dictLookup, ih]

theorem dictLookup_insert_ne (d : Dict) (k' k : String) (v : Value)
    (h : k' ≠ k) : dictLookup (dictInsert d k' v) k = dictLookup d k := by
  induction d with
  | nil => simp [dictInsert, dictLookup, h]
  | cons kv rest ih =>
      by_cases h2 : kv.1 = k'
      · simp [dictInsert, h2, dictLookup, h]
      · by_cases h3 : kv.1 = k
        · simp [dictInsert, h2, dictLookup, h3, Ne.symm h]
        · simp [dictInsert, h2, dictLookup, h3, ih]

theorem dictLookup_filter_eq (d : Dict) (p : String × Value → Bool)
    (k : String) (h : ∀ v, p (k, v) = true) :
    dictLookup (List.filter p d) k = dictLookup d k := by
  induction d with
  | nil => simp [dictLookup]
  | cons kv rest ih =>
      by_cases h2 : kv.1 = k
      · have : p kv = true := by
          have := h kv.2
          rwa [show (k, kv.2) = kv from by rw [← h2]] at this
        simp [List.filter, this, dictLookup, h2, ih]
      · cases h3 : p kv
        · simp [List.filter, h3, dictLookup, h2, ih]
        · simp [List.filter, h3, dictLookup, h2, ih]

theorem dictLookup_filter_none (d : Dict) (p : String × Value → Bool)
    (k : String) (h : ∀ v, p (k, v) = false) :
    dictLookup (List.filter p d) k = none := by
  induction d with
  | nil => simp [dictLookup]
  | cons kv rest ih =>
      by_cases h2 : kv.1 = k
      · have : p kv = false := by
          have := h kv.2
          rwa [show (k, kv.2) = kv from by rw [← h2]] at this
        simp [List.filter, this, ih]
      · cases h3 : p kv
        · simp [List.filter, h3, ih]
        · simp [List.filter, h3, dictLookup, h2, ih]

/-! ## Per-call behavior of the strategy's state -/

theorem update_state_lookup_preserved (strat : MonetizationStrategy)
    (env : Env) (action : String) (reward : Int)
    (s2 : MonetizationStrategy) (k : String)
    (h : update_state strat env action reward = Except.ok s2)
    (h1 : k ≠ "last_action") (h2 : k ≠ "timestamp") (h3 : k ≠ "reward") :
    dictLookup s2.current_state k = dictLookup strat.current_state k := by
  unfold update_state at h
  by_cases hm : env.merge_ok
  · simp [hm] at h
    subst h
    simp
    rw [dictLookup_insert_ne _ _ _ _ (Ne.symm h3),
        dictLookup_insert_ne _ _ _ _ (Ne.symm h2),
        dictLookup_insert_ne _ _ _ _ (Ne.symm h1)]
  · simp [hm] at h
    by_cases he : strat.error_handling
    · simp [he] at h
      subst h
      rfl
    · simp [he] at h

theorem execute_state_lookup_preserved (strat : MonetizationStrategy)
    (env : Env) (k : String)
    (h1 : k ≠ "last_action") (h2 : k ≠ "timestamp") (h3 : k ≠ "reward") :
    dictLookup (execute strat env).2.current_state k
      = dictLookup strat.current_state k := by
  unfold execute
  cases hs : select_next_action strat env with
  | error e => by_cases he : strat.error_handling <;> simp [he]
  | ok action =>
      cases hr : env.get_reward_result action strat.current_state with
      | error e => by_cases he : strat.error_handling <;> simp [he, hr]
      | ok reward =>
          cases hu : update_state strat env action reward with
          | error e => by_cases he : strat.error_handling <;> simp [he, hr, hu]
          | ok s2 =>
              simp only [hr, hu]
              exact update_state_lookup_preserved strat env action reward s2 k
                hu h1 h2 h3

theorem select_next_action_error_imp (strat : MonetizationStrategy)
    (env : Env) (e : Unit)
    (h : select_next_action strat env = Except.error e) :
    strat.error_handling = false := by
  unfold select_next_action at h
  by_cases he : strat.error_handling
  · cases hb : (get_emotional_context strat env strat.current_state).bind
        (fun ec => env.choose_action_result strat.current_state ec) <;>
      simp [hb, he] at h
  · simpa using he

theorem select_next_action_ok_of_eh (strat : MonetizationStrategy)
    (env : Env) (heh : strat.error_handling = true) :
    ∃ a, select_next_action strat env = Except.ok a := by
  cases hs : select_next_action strat env with
  | error e =>
      rw [select_next_action_error_imp strat env e hs] at heh
      cases heh
  | ok a => exact ⟨a, rfl⟩

theorem update_state_ok_history (strat : MonetizationStrategy) (env : Env)
    (action : String) (reward : Int) (s2 : MonetizationStrategy)
    (h : update_state strat env action reward = Except.ok s2) :
    (env.merge_ok = true ∧ s2.reward_history
        = strat.reward_history ++ [reward])
    ∨ (env.merge_ok = false ∧ s2 = strat) := by
  unfold update_state at h
  by_cases hm : env.merge_ok
  · simp [hm] at h
    exact Or.inl ⟨hm, by rw [← h]⟩
  · simp [hm] at h
    by_cases he : strat.error_handling
    · simp [he] at h
      exact Or.inr ⟨by simpa using hm, h.symm⟩
    · simp [he] at h

theorem execute_history_cases (strat : MonetizationStrategy) (env : Env) :
    (execute strat env).2.reward_history = strat.reward_history
    ∨ ∃ r, (execute strat env).2.reward_history
        = strat.reward_history ++ [r] := by
  unfold execute
  cases hs : select_next_action strat env with
  | error e =>
      by_cases he : strat.error_handling <;> simp [he]
  | ok action =>
      cases hr : env.get_reward_result action strat.current_state with
      | error e => by_cases he : strat.error_handling <;> simp [he, hr]
      | ok reward =>
          cases hu : update_state strat env action reward with
          | error e =>
              by_cases he : strat.error_handling <;> simp [he, hr, hu]
          | ok s2 =>
              simp only [hr, hu]
              rcases update_state_ok_history strat env action reward s2 hu
                with ⟨_, h2⟩ | ⟨_, h2⟩
              · exact Or.inr ⟨reward, h2⟩
              · rw [h2]
                exact Or.inl rfl

theorem execute_reward_error (strat : MonetizationStrategy) (env : Env)
    (h : ∀ a, env.get_reward_result a strat.current_state
      = Except.error ()) :
    execute strat env =
      (if !strat.error_handling then none
       else some (mkOutcome "none" 0 env.now), strat) := by
  unfold execute
  cases hs : select_next_action strat env with
  | error e =>
      have := select_next_action_error_imp strat env e hs
      simp [this]
  | ok action => by_cases he : strat.error_handling <;> simp [h action, he]

theorem execute_outcome_shape (strat : MonetizationStrategy) (env : Env)
    (d : Dict) (h : (execute strat env).1 = some d) :
    d.map Prod.fst = ["action", "reward", "timestamp"] := by
  unfold execute at h
  cases hs : select_next_action strat env with
  | error e =>
      simp only [hs] at h
      by_cases he : strat.error_handling <;> simp [he] at h <;>
        simp [← h, mkOutcome]
  | ok action =>
      simp only [hs] at h
      cases hr : env.get_reward_result action strat.current_state with
      | error e =>
          simp only [hr] at h
          by_cases he : strat.error_handling <;> simp [he] at h <;>
            simp [← h, mkOutcome]
      | ok reward =>
          simp only [hr] at h
          cases hu : update_state strat env action reward with
          | error e =>
              simp only [hu] at h
              by_cases he : strat.error_handling <;> simp [he] at h <;>
                simp [← h, mkOutcome]
          | ok s2 =>
              simp only [hu] at h
              simp at h
              simp [← h, mkOutcome]

theorem execute_strategy_total_shape (fw : AdaptiveMonetizationFramework)
    (c : Option MonetizationStrategy) (env : Env)
    (heh : fw.error_handling = true) :
    ∃ d s2, execute_strategy fw c env = (some d, s2)
      ∧ d.map Prod.fst = ["action", "reward", "timestamp"] := by
  cases c with
  | none =>
      refine ⟨mkOutcome "none" 0 env.now, none, ?_, rfl⟩
      simp [execute_strategy, heh]
  | some s =>
      cases hx : execute s env with
      | mk o s2 =>
          cases o with
          | none =>
              refine ⟨mkOutcome "none" 0 env.now,
                some (rollback_strategy_execution s2), ?_, rfl⟩
              simp [execute_strategy, hx, heh]
          | some d =>
              refine ⟨d, some s2, ?_, ?_⟩
              · simp [execute_strategy, hx]
              · exact execute_outcome_shape s env d (by rw [hx])

theorem run_candidates_total_shape (fw : AdaptiveMonetizationFramework)
    (envAt : Nat → Env) (cs : List (Option MonetizationStrategy)) (i : Nat)
    (heh : fw.error_handling = true) (hne : cs ≠ []) :
    ∃ d, run_candidates fw envAt cs i = some d
      ∧ d.map Prod.fst = ["action", "reward", "timestamp"] := by
  induction cs generalizing i with
  | nil => cases hne rfl
  | cons c rest ih =>
      obtain ⟨d, s2, hx, hk⟩ := execute_strategy_total_shape fw c (envAt i) heh
      cases rest with
      | nil => exact ⟨d, by simp [run_candidates, hx], hk⟩
      | cons c2 rest2 =>
          by_cases hd : dictLookup d "action" = some (Value.vStr "none")
          · obtain ⟨d2, h2, hk2⟩ := ih (i + 1) (by simp)
            exact ⟨d2, by simp [run_candidates, hx, hd, h2], hk2⟩
          · exact ⟨d, by simp [run_candidates, hx, hd], hk⟩

theorem candidate_outcomes_cons (fw : AdaptiveMonetizationFramework)
    (envAt : Nat → Env) (c : Option MonetizationStrategy)
    (rest : List (Option MonetizationStrategy)) (i : Nat) (d : Dict)
    (s2 : Option MonetizationStrategy)
    (hx : execute_strategy fw c (envAt i) = (some d, s2)) :
    candidate_outcomes fw envAt (c :: rest) i
      = d :: candidate_outcomes fw envAt rest (i + 1) := by
  simp [candidate_outcomes, hx]

theorem run_candidates_first_success (fw : AdaptiveMonetizationFramework)
    (envAt : Nat → Env) (cs : List (Option MonetizationStrategy)) (i : Nat)
    (heh : fw.error_handling = true) (hne : cs ≠ []) :
    run_candidates fw envAt cs i
      = first_success_else_last (candidate_outcomes fw envAt cs i) := by
  induction cs generalizing i with
  | nil => cases hne rfl
  | cons c rest ih =>
      obtain ⟨d, s2, hx, _⟩ := execute_strategy_total_shape fw c (envAt i) heh
      rw [candidate_outcomes_cons fw envAt c rest i d s2 hx]
      cases rest with
      | nil =>
          by_cases hd : dictLookup d "action" = some (Value.vStr "none")
          · simp [run_candidates, hx, first_success_else_last,
              candidate_outcomes, List.find?, outcome_success, hd]
          · simp [run_candidates, hx, first_success_else_last,
              candidate_outcomes, List.find?, outcome_success, hd]
      | cons c2 rest2 =>
          obtain ⟨d2, s3, hx2, _⟩ :=
            execute_strategy_total_shape fw c2 (envAt (i + 1)) heh
          have houts2 : candidate_outcomes fw envAt (c2 :: rest2) (i + 1)
              = d2 :: candidate_outcomes fw envAt rest2 (i + 2) :=
            candidate_outcomes_cons fw envAt c2 rest2 (i + 1) d2 s3 hx2
          by_cases hd : dictLookup d "action" = some (Value.vStr "none")
          · rw [show run_candidates fw envAt (c :: c2 :: rest2) i
                  = run_candidates fw envAt (c2 :: rest2) (i + 1) from by
                simp [run_candidates, hx, hd],
              ih (i + 1) (by simp)]
            unfold first_success_else_last
            rw [show List.find? outcome_success
                  (d :: candidate_outcomes fw envAt (c2 :: rest2) (i + 1))
                  = List.find? outcome_success
                    (candidate_outcomes fw envAt (c2 :: rest2) (i + 1)) from by
              simp [List.find?, outcome_success, hd]]
            cases List.find? outcome_success
                (candidate_outcomes fw envAt (c2 :: rest2) (i + 1)) with
            | some o => rfl
            | none =>
                rw [houts2, List.getLast?_cons_cons]
          · simp [run_candidates, hx, hd, first_success_else_last,
              List.find?, outcome_success]

theorem execute_iter_context (strat : MonetizationStrategy)
    (envs : List Env) :
    dictLookup (execute_iter strat envs).current_state "context"
      = dictLookup strat.current_state "context" := by
  induction envs generalizing strat with
  | nil => rfl
  | cons env envs ih =>
      calc dictLookup (execute_iter strat (env :: envs)).current_state
              "context"
          = dictLookup (execute strat env).2.current_state "context" :=
            ih (execute strat env).2
        _ = dictLookup strat.current_state "context" :=
            execute_state_lookup_preserved strat env "context"
              (by decide) (by decide) (by decide)

theorem rollback_lookup_eq (strat : MonetizationStrategy) (k : String)
    (hk1 : k ≠ "last_action") (hk2 : k ≠ "reward") :
    dictLookup (rollback_strategy_execution strat).current_state k
      = dictLookup strat.current_state k := by
  unfold rollback_strategy_execution
  exact dictLookup_filter_eq strat.current_state _ k
    (fun v => by simp [hk1, hk2])

/-! ## Claim theorems -/

/-- Claim C4: for every Strategy whose state contains a context key,
the value of that key is unchanged by every call to `execute`
(successful, degraded, or raising — also under repeated calls against
any sequence of environments, in particular an always-failing policy
provider) and by every call to `_rollback_strategy_execution`. -/
theorem claim_C4_context_immutable (strat : MonetizationStrategy)
    (env : Env) (envs : List Env) :
    dictLookup (execute strat env).2.current_state "context"
        = dictLookup strat.current_state "context"
      ∧ dictLookup (rollback_strategy_execution strat).current_state
          "context"
        = dictLookup strat.current_state "context"
      ∧ dictLookup (execute_iter strat envs).current_state "context"
        = dictLookup strat.current_state "context" :=
  ⟨execute_state_lookup_preserved strat env "context"
      (by decide) (by decide) (by decide),
   rollback_lookup_eq strat "context" (by decide) (by decide),
   execute_iter_context strat envs⟩

/-- Claim C8: `_rollback_strategy_execution` removes exactly the keys
`last_action` and `reward` from the strategy's state, and every other
key (for example `context` or a caller-supplied `plan`) stays present
with its value unchanged.  It is a total function of the state (the
source wraps the comprehension in a catch-all handler), so it never
raises to its caller. -/
theorem claim_C8_rollback_frame (strat : MonetizationStrategy) :
    dictLookup (rollback_strategy_execution strat).current_state
        "last_action" = none
      ∧ dictLookup (rollback_strategy_execution strat).current_state
          "reward" = none
      ∧ ∀ k, k ≠ "last_action" → k ≠ "reward" →
          dictLookup (rollback_strategy_execution strat).current_state k
            = dictLookup strat.current_state k := by
  refine ⟨?_, ?_, fun k hk1 hk2 => rollback_lookup_eq strat k hk1 hk2⟩
  · unfold rollback_strategy_execution
    exact dictLookup_filter_none strat.current_state _ _
      (fun v => by simp)
  · unfold rollback_strategy_execution
    exact dictLookup_filter_none strat.current_state _ _
      (fun v => by simp)

/-- Witness for C8 on the state
`{context: "default", plan: "pro", last_action: "upsell", reward: 5}`:
`plan` and `context` survive rollback unchanged while `last_action`
and `reward` are removed. -/
theorem claim_C8_witness :
    dictLookup (rollback_strategy_execution stratRollW).current_state
        "plan" = dictLookup stratRollW.current_state "plan"
      ∧ dictLookup (rollback_strategy_execution stratRollW).current_state
          "context" = dictLookup stratRollW.current_state "context"
      ∧ dictLookup (rollback_strategy_execution stratRollW).current_state
          "last_action" = none
      ∧ dictLookup (rollback_strategy_execution stratRollW).current_state
          "reward" = none :=
  ⟨(claim_C8_rollback_frame stratRollW).2.2 "plan" (by decide) (by decide),
   (claim_C8_rollback_frame stratRollW).2.2 "context" (by decide)
     (by decide),
   (claim_C8_rollback_frame stratRollW).1,
   (claim_C8_rollback_frame stratRollW).2.1⟩

/-- Claim C9: with an empty registry (no strategies, hence no fallback
either) and error handling on, `process_interaction` returns the
degraded outcome `{action: "none", reward: 0, timestamp: T}` — the
timestamp being the one produced while absorbing the `None` fallback
candidate. -/
theorem claim_C9_empty_registry (ctx : String) (envAt : Nat → Env)
    (now0 : String) (user_data : Dict) :
    process_interaction ⟨[], ctx, true⟩ envAt now0 user_data
      = some (mkOutcome "none" 0 (envAt 0).now) := rfl

/-- Claim C10: the source never defines or imports the name
`RiskAssessor`, so `AdaptiveMonetizationFramework.__init__`, which
evaluates it, fails with a `NameError` on every construction — no
instance is ever produced. -/
theorem claim_C10_constructor_name_error :
    framework_init moduleGlobals
        = Except.error "NameError: name RiskAssessor is not defined"
      ∧ moduleGlobals.contains "RiskAssessor" = false := by
  exact ⟨rfl, rfl⟩

/-- Claim C1: for every user_data mapping and every registry contents,
with the orchestrator's error handling enabled, `process_interaction`
never raises and returns a mapping whose keys are exactly `action`,
`reward`, `timestamp`.  (The candidate-loop tail of the method is
missing from the truncated source and is modelled from the spec in
`run_candidates`.) -/
theorem claim_C1_process_interaction_total_shape
    (fw : AdaptiveMonetizationFramework) (envAt : Nat → Env)
    (now0 : String) (user_data : Dict)
    (heh : fw.error_handling = true) :
    ∃ d, process_interaction fw envAt now0 user_data = some d
      ∧ d.map Prod.fst = ["action", "reward", "timestamp"] := by
  unfold process_interaction
  cases hemp : (select_relevant_strategies fw).isEmpty with
  | true => exact ⟨mkOutcome "none" 0 now0, by simp [hemp], rfl⟩
  | false =>
      have hne : select_relevant_strategies fw ≠ [] := by
        intro hnil
        rw [hnil] at hemp
        cases hemp
      obtain ⟨d, hrun, hk⟩ := run_candidates_total_shape fw envAt
        (select_relevant_strategies fw) 0 heh hne
      exact ⟨d, by simp [hemp, hrun], hk⟩

/-- Witness for C1: orchestrator with one `"default"` strategy and an
all-successful environment. -/
theorem claim_C1_witness :
    ∃ d, process_interaction fwW (fun _ => envOkW) "T0" [] = some d
      ∧ d.map Prod.fst = ["action", "reward", "timestamp"] :=
  claim_C1_process_interaction_total_shape fwW (fun _ => envOkW)
    "T0" [] rfl

/-- Claim C3: with error handling enabled and a non-empty candidate
list from strategy selection, `process_interaction` executes the
candidates in order via `_execute_strategy` (candidate `i` against
environment `envAt i`, reflected by `candidate_outcomes`) and returns
the first outcome whose `action` is not the sentinel `"none"`; if every
candidate degrades it returns the last outcome.  (The loop is the
spec-modelled `run_candidates`.) -/
theorem claim_C3_first_success_else_last
    (fw : AdaptiveMonetizationFramework) (envAt : Nat → Env)
    (now0 : String) (user_data : Dict)
    (heh : fw.error_handling = true)
    (hne : select_relevant_strategies fw ≠ []) :
    process_interaction fw envAt now0 user_data
      = first_success_else_last
          (candidate_outcomes fw envAt (select_relevant_strategies fw) 0)
      := by
  unfold process_interaction
  have hemp : (select_relevant_strategies fw).isEmpty = false := by
    cases hsel : select_relevant_strategies fw with
    | nil => cases hne hsel
    | cons c rest => rfl
  obtain ⟨d, hrun, _⟩ := run_candidates_total_shape fw envAt
    (select_relevant_strategies fw) 0 heh hne
  rw [← run_candidates_first_success fw envAt
    (select_relevant_strategies fw) 0 heh hne]
  simp [hemp, hrun]

/-- Witness for C3: one applicable strategy, successful environment;
hypotheses discharged on the concrete registry. -/
theorem claim_C3_witness :
    process_interaction fwW (fun _ => envOkW) "T0" []
      = first_success_else_last
          (candidate_outcomes fwW (fun _ => envOkW)
            (select_relevant_strategies fwW) 0) :=
  claim_C3_first_success_else_last fwW (fun _ => envOkW) "T0" [] rfl
    (by decide)

/-- Counterexample to C2 as stated: with error handling enabled and a
state-merge failure (`merge_ok = false`) while both providers succeed,
`execute` does NOT return the degraded outcome — `_update_state`
swallows the merge failure itself, so `execute` returns the normal
outcome `{action: "upsell", reward: 5, ...}` (state and history are
retained, but the outcome is not `{action: "none", reward: 0, ...}`). -/
theorem claim_C2_counterexample :
    envMergeFailW.merge_ok = false
      ∧ execute stratW envMergeFailW
        = (some (mkOutcome "upsell" 5 "T1"), stratW)
      ∧ mkOutcome "upsell" 5 "T1" ≠ mkOutcome "none" 0 "T1" :=
  ⟨rfl, rfl, by decide⟩

/-- Claim C2 as amended: with error handling enabled, a provider
failure (the reward lookup raising) makes `execute` return the
degraded outcome with the prior state retained and history not
appended; a failure inside the state-merge step is absorbed within
`_update_state` itself — state and history are likewise retained, but
`execute` returns the normal outcome built from the chosen action and
reward, not the degraded one. -/
theorem claim_C2_amended_failure_isolation
    (strat : MonetizationStrategy) (env : Env) (a : String) (r : Int)
    (heh : strat.error_handling = true) :
    ((∀ a', env.get_reward_result a' strat.current_state
        = Except.error ()) →
      execute strat env = (some (mkOutcome "none" 0 env.now), strat))
    ∧ (select_next_action strat env = Except.ok a →
       env.get_reward_result a strat.current_state = Except.ok r →
       env.merge_ok = false →
        execute strat env = (some (mkOutcome a r env.now), strat)) := by
  constructor
  · intro h
    rw [execute_reward_error strat env h, heh]
    rfl
  · intro h1 h2 hm
    unfold execute
    simp only [h1, h2]
    unfold update_state
    simp [hm, heh]

/-- Witness for C2 (amended): the degraded branch on a failing reward
provider and the absorbed-merge branch on a failing merge, both on the
concrete default-context strategy. -/
theorem claim_C2_witness :
    execute stratW envRewardFailW
        = (some (mkOutcome "none" 0 "T1"), stratW)
      ∧ execute stratW envMergeFailW
        = (some (mkOutcome "upsell" 5 "T1"), stratW) :=
  ⟨(claim_C2_amended_failure_isolation stratW envRewardFailW "upsell" 5
      rfl).1 (fun a' => rfl),
   (claim_C2_amended_failure_isolation stratW envMergeFailW "upsell" 5
      rfl).2 rfl rfl rfl⟩

/-- Counterexample to C5 as stated: a degraded cycle (reward provider
raising) appends nothing to `reward_history`, not a zero — the history
is `[]` before and after, whereas the claim requires it to become
`[0]`. -/
theorem claim_C5_counterexample :
    (execute stratW envRewardFailW).1 = some (mkOutcome "none" 0 "T1")
      ∧ (execute stratW envRewardFailW).2.reward_history = []
      ∧ stratW.reward_history ++ [0] ≠ ([] : List Int) :=
  ⟨rfl, rfl, by decide⟩

/-- Claim C5 as amended: `reward_history` is append-only (each call to
`execute` leaves the prior history as a prefix) and appends at most one
element per call — exactly the obtained reward when the reward lookup
and the state merge succeed, and nothing on a degraded cycle (reward
provider failure). -/
theorem claim_C5_amended_history_appends
    (strat : MonetizationStrategy) (env : Env) (a : String) (r : Int) :
    ((execute strat env).2.reward_history.take
        strat.reward_history.length = strat.reward_history
      ∧ (execute strat env).2.reward_history.length
        ≤ strat.reward_history.length + 1)
    ∧ ((∀ a', env.get_reward_result a' strat.current_state
          = Except.error ()) →
        (execute strat env).2.reward_history = strat.reward_history)
    ∧ (select_next_action strat env = Except.ok a →
       env.get_reward_result a strat.current_state = Except.ok r →
       env.merge_ok = true →
        (execute strat env).2.reward_history
          = strat.reward_history ++ [r]) := by
  refine ⟨?_, ?_, ?_⟩
  · rcases execute_history_cases strat env with h | ⟨r', h⟩
    · rw [h]
      exact ⟨List.take_length strat.reward_history, Nat.le_succ _⟩
    · rw [h]
      constructor
      · exact List.take_left strat.reward_history [r']
      · simp
  · intro h
    rw [execute_reward_error strat env h]
  · intro h1 h2 hm
    unfold execute
    simp only [h1, h2]
    unfold update_state
    simp [hm]

/-- Witness for C5 (amended): on the concrete strategy, a successful
cycle appends exactly `[5]` and a degraded cycle appends nothing. -/
theorem claim_C5_witness :
    ((execute stratW envOkW).2.reward_history.take
        stratW.reward_history.length = stratW.reward_history
      ∧ (execute stratW envOkW).2.reward_history.length
        ≤ stratW.reward_history.length + 1)
      ∧ (execute stratW envRewardFailW).2.reward_history
        = stratW.reward_history
      ∧ (execute stratW envOkW).2.reward_history
        = stratW.reward_history ++ [5] :=
  ⟨(claim_C5_amended_history_appends stratW envOkW "upsell" 5).1,
   (claim_C5_amended_history_appends stratW envRewardFailW "upsell" 5).2.1
     (fun a' => rfl),
   (claim_C5_amended_history_appends stratW envOkW "upsell" 5).2.2
     rfl rfl rfl⟩

/-- Claim C6: with error handling enabled, when `execute` degrades
because the reward provider call fails, `reward_history` has the same
length after the call as before it. -/
theorem claim_C6_degraded_history_length
    (strat : MonetizationStrategy) (env : Env)
    (heh : strat.error_handling = true)
    (h : ∀ a, env.get_reward_result a strat.current_state
      = Except.error ()) :
    ((execute strat env).2.reward_history).length
      = strat.reward_history.length := by
  rw [execute_reward_error strat env h]

/-- Witness for C6: failing reward provider on the concrete strategy. -/
theorem claim_C6_witness :
    ((execute stratW envRewardFailW).2.reward_history).length
      = stratW.reward_history.length :=
  claim_C6_degraded_history_length stratW envRewardFailW rfl
    (fun a => rfl)

/-- Counterexample to C7 as stated: when the state merge fails (with
error handling on), `execute` still returns the successful-looking
outcome `{action: "upsell", reward: 5, ...}`, yet the state gained no
`last_action` key and the history is still empty — so "after a
successful call returning O, state maps last_action to O's action and
history ends with O's reward" fails on the code. -/
theorem claim_C7_counterexample :
    (execute stratW envMergeFailW).1 = some (mkOutcome "upsell" 5 "T1")
      ∧ dictLookup (execute stratW envMergeFailW).2.current_state
          "last_action" = none
      ∧ (execute stratW envMergeFailW).2.reward_history = [] :=
  ⟨rfl, rfl, rfl⟩

/-- Claim C7 as amended: after a call to `execute` whose action
selection and reward lookup succeed and whose state update succeeds
(`merge_ok`), the returned outcome is `{action: a, reward: r, ...}`,
`current_state` maps `last_action` to that action, and
`reward_history` ends with that reward. -/
theorem claim_C7_amended_success_postcondition
    (strat : MonetizationStrategy) (env : Env) (a : String) (r : Int)
    (h1 : select_next_action strat env = Except.ok a)
    (h2 : env.get_reward_result a strat.current_state = Except.ok r)
    (h3 : env.merge_ok = true) :
    (execute strat env).1 = some (mkOutcome a r env.now)
      ∧ dictLookup (execute strat env).2.current_state "last_action"
        = some (Value.vStr a)
      ∧ ((execute strat env).2.reward_history).getLast? = some r := by
  have hexec : execute strat env
      = (some (mkOutcome a r env.now),
         { strat with
           current_state :=
             dictInsert (dictInsert (dictInsert strat.current_state
               "last_action" (Value.vStr a))
               "timestamp" (Value.vStr env.now))
               "reward" (Value.vInt r),
           reward_history := strat.reward_history ++ [r] }) := by
    unfold execute
    simp only [h1, h2]
    unfold update_state
    simp [h3]
  rw [hexec]
  refine ⟨rfl, ?_, ?_⟩
  · show dictLookup (dictInsert (dictInsert (dictInsert
        strat.current_state "last_action" (Value.vStr a))
        "timestamp" (Value.vStr env.now))
        "reward" (Value.vInt r)) "last_action" = some (Value.vStr a)
    rw [dictLookup_insert_ne _ _ _ _ (by decide),
        dictLookup_insert_ne _ _ _ _ (by decide),
        dictLookup_insert_self]
  · show (strat.reward_history ++ [r]).getLast? = some r
    rw [List.getLast?_append_cons]
    rfl

/-- Witness for C7 (amended): all-successful environment on the
concrete strategy. -/
theorem claim_C7_witness :
    (execute stratW envOkW).1 = some (mkOutcome "upsell" 5 "T1")
      ∧ dictLookup (execute stratW envOkW).2.current_state "last_action"
        = some (Value.vStr "upsell")
      ∧ ((execute stratW envOkW).2.reward_history).getLast? = some 5 :=
  claim_C7_amended_success_postcondition stratW envOkW "upsell" 5
    rfl rfl rfl
